import Mathlib

/-!
A verification development for the crypto news bot in src/main.py.

The embedding models the pure core of the program: the MD5 fingerprint used
for deduplication, the posted-news store with its load, membership, insert
and pruning operations, the per-cycle delivery loop with its cap of 5, and
the candidate-acceptance checks of the extraction code. Network fetching and
the Telegram transport are modelled at their boundary: a fetched candidate
list is a parameter of a cycle, and the Delivery Sink is an oracle saying
whether send_message succeeds for a given item. Wall-clock times are whole
seconds (an Int), so timedelta(days=d) is d * 86400 seconds.
-/

set_option maxRecDepth 40000

/-! ## MD5 (hashlib.md5(...).hexdigest() as used on lines 431 and 440)

A byte is a Nat below 256, a word a Nat below 2 ^ 32; all arithmetic is on
Nat with explicit reduction mod 2 ^ 32. The digest of a string is the usual
lowercase 32-character hexadecimal form of the 16 output bytes. -/

def M32 : Nat := 4294967296

/-- Left rotation of a 32-bit word. -/
def rotl32 (x n : Nat) : Nat := ((x <<< n) + (x >>> (32 - n))) % M32

/-- The 64 MD5 sine-derived round constants. -/
def md5K : List Nat := [
  3614090360, 3905402710, 606105819, 3250441966, 4118548399, 1200080426, 2821735955, 4249261313,
  1770035416, 2336552879, 4294925233, 2304563134, 1804603682, 4254626195, 2792965006, 1236535329,
  4129170786, 3225465664, 643717713, 3921069994, 3593408605, 38016083, 3634488961, 3889429448,
  568446438, 3275163606, 4107603335, 1163531501, 2850285829, 4243563512, 1735328473, 2368359562,
  4294588738, 2272392833, 1839030562, 4259657740, 2763975236, 1272893353, 4139469664, 3200236656,
  681279174, 3936430074, 3572445317, 76029189, 3654602809, 3873151461, 530742520, 3299628645,
  4096336452, 1126891415, 2878612391, 4237533241, 1700485571, 2399980690, 4293915773, 2240044497,
  1873313359, 4264355552, 2734768916, 1309151649, 4149444226, 3174756917, 718787259, 3951481745]

/-- The 64 MD5 per-round shift amounts. -/
def md5S : List Nat := [
  7, 12, 17, 22, 7, 12, 17, 22, 7, 12, 17, 22, 7, 12, 17, 22,
  5, 9, 14, 20, 5, 9, 14, 20, 5, 9, 14, 20, 5, 9, 14, 20,
  4, 11, 16, 23, 4, 11, 16, 23, 4, 11, 16, 23, 4, 11, 16, 23,
  6, 10, 15, 21, 6, 10, 15, 21, 6, 10, 15, 21, 6, 10, 15, 21]

/-- UTF-8 bytes of one code point (str.encode() in Python). -/
def utf8Bytes (c : Char) : List Nat :=
  let n := c.toNat
  if n < 128 then [n]
  else if n < 2048 then [192 + (n >>> 6), 128 + (n % 64)]
  else if n < 65536 then [224 + (n >>> 12), 128 + ((n >>> 6) % 64), 128 + (n % 64)]
  else [240 + (n >>> 18), 128 + ((n >>> 12) % 64), 128 + ((n >>> 6) % 64), 128 + (n % 64)]

/-- UTF-8 bytes of a whole string. -/
def strBytes (s : String) : List Nat := (s.data.map utf8Bytes).flatten

/-- The k little-endian bytes of n. -/
def leBytes (k n : Nat) : List Nat := (List.range k).map (fun i => (n >>> (8 * i)) % 256)

/-- MD5 padding: a 1 bit, zeros to 56 mod 64 bytes, then the bit length. -/
def md5Pad (msg : List Nat) : List Nat :=
  let len := msg.length
  msg ++ [128] ++ List.replicate ((119 - len % 64) % 64) 0 ++ leBytes 8 ((len * 8) % 2 ^ 64)

/-- Word g of a 64-byte block, little-endian. -/
def wordAt (block : List Nat) (g : Nat) : Nat :=
  List.getD block (4 * g) 0 + 256 * List.getD block (4 * g + 1) 0 +
    65536 * List.getD block (4 * g + 2) 0 + 16777216 * List.getD block (4 * g + 3) 0

/-- The MD5 mixing function of round i (bitwise complement is M32 - 1 - x). -/
def md5F (i b c d : Nat) : Nat :=
  if i < 16 then (b &&& c) ||| ((M32 - 1 - b) &&& d)
  else if i < 32 then (d &&& b) ||| ((M32 - 1 - d) &&& c)
  else if i < 48 then b ^^^ c ^^^ d
  else c ^^^ (b ||| (M32 - 1 - d))

/-- The message-word index used by round i. -/
def md5G (i : Nat) : Nat :=
  if i < 16 then i
  else if i < 32 then (5 * i + 1) % 16
  else if i < 48 then (3 * i + 5) % 16
  else (7 * i) % 16

/-- One MD5 round on the state (a, b, c, d). -/
def md5Round (block : List Nat) (st : Nat × Nat × Nat × Nat) (i : Nat) : Nat × Nat × Nat × Nat :=
  match st with
  | (a, b, c, d) =>
    let f := (md5F i b c d + a + md5K.getD i 0 + wordAt block (md5G i)) % M32
    (d, (b + rotl32 f (md5S.getD i 0)) % M32, b, c)

/-- Process one 64-byte block: 64 rounds, then add into the chaining state. -/
def md5Compress (st : Nat × Nat × Nat × Nat) (block : List Nat) : Nat × Nat × Nat × Nat :=
  match st, (List.range 64).foldl (md5Round block) st with
  | (a0, b0, c0, d0), (a, b, c, d) =>
    ((a0 + a) % M32, (b0 + b) % M32, (c0 + c) % M32, (d0 + d) % M32)

/-- Fold md5Compress over successive 64-byte blocks; the fuel argument keeps
the recursion structural, so the kernel can evaluate it. -/
def md5BlocksAux (st : Nat × Nat × Nat × Nat) : Nat → List Nat → Nat × Nat × Nat × Nat
  | 0, _ => st
  | _, [] => st
  | fuel + 1, b :: bs =>
    md5BlocksAux (md5Compress st ((b :: bs).take 64)) fuel ((b :: bs).drop 64)

def md5Blocks (st : Nat × Nat × Nat × Nat) (bs : List Nat) : Nat × Nat × Nat × Nat :=
  md5BlocksAux st bs.length bs

/-- One lowercase hexadecimal digit. -/
def hexDigit (n : Nat) : Char := if n < 10 then Char.ofNat (48 + n) else Char.ofNat (87 + n)

def byteHex (b : Nat) : List Char := [hexDigit (b / 16), hexDigit (b % 16)]

/-- The eight hex digits of one state word, little-endian byte order. -/
def wordHexLE (x : Nat) : List Char :=
  byteHex (x % 256) ++ byteHex ((x >>> 8) % 256) ++ byteHex ((x >>> 16) % 256) ++
    byteHex ((x >>> 24) % 256)

/-- hashlib.md5(s.encode()).hexdigest(). -/
def md5hex (s : String) : String :=
  match md5Blocks (1732584193, 4023233417, 2562383102, 271733878) (md5Pad (strBytes s)) with
  | (a, b, c, d) => String.mk (wordHexLE a ++ wordHexLE b ++ wordHexLE c ++ wordHexLE d)

/-! ## News items and the posted-news store

A news item in the program is a Python dict of string fields (or, defensively
handled, any other value). The posted_news store maps an MD5 hexdigest to a
stored value; a Python dict is an association list whose keys are unique, and
assignment replaces in place or appends. -/

/-- A Python value reaching a news-item position: a dict with string fields,
or any non-dict value. -/
inductive NewsValue where
  | dict (fields : List (String × String))
  | other
deriving DecidableEq

/-- Dict field lookup. -/
def lookupField (fields : List (String × String)) (k : String) : Option String :=
  match fields.find? (fun p => p.1 == k) with
  | some p => some p.2
  | none => none

/-- Python dict assignment on an association list: replace the value under an
existing key in place, else append the new pair. -/
def setKey {α : Type} (l : List (String × α)) (k : String) (v : α) : List (String × α) :=
  if l.any (fun p => p.1 == k) then l.map (fun p => if p.1 == k then (k, v) else p)
  else l ++ [(k, v)]

/-- What datetime.fromisoformat makes of the timestamp field of a stored
entry, over the fragment of store states whose pruning stays inside the
per-entry handler: the key is absent, the value is a string the parser
rejects with ValueError, or it parses to a naive time, counted in whole
seconds. Timestamp values that raise TypeError instead — a non-string
value, or an offset-aware string — are covered by TsFull below. -/
inductive TsField where
  | absent
  | unparsable
  | time (t : Int)
deriving DecidableEq

/-- A value stored under a fingerprint in posted_news: a dict with an
optional title and a timestamp field, or (corruption) a non-dict value. -/
inductive StoredVal where
  | entry (title : Option String) (ts : TsField)
  | nonDict
deriving DecidableEq

abbrev PostedStore := List (String × StoredVal)

/-- Membership test news_hash in self.posted_news. -/
def storeMem (k : String) (posted : PostedStore) : Bool := posted.any (fun p => p.1 == k)

/-- A state of the durable posted_news.json file as json.load sees it: the
file is missing (FileNotFoundError), its contents do not parse
(JSONDecodeError), or they parse to a record set. -/
inductive StoreFile where
  | missing
  | unparsable
  | parsed (posted : PostedStore)

/-- load_posted_news (src/main.py lines 43-50): a missing or unparsable file
degrades to an empty store. -/
def load_posted_news : StoreFile → PostedStore
  | .missing => []
  | .unparsable => []
  | .parsed posted => posted

/-- The hash both is_news_posted (line 431) and mark_as_posted (line 440)
compute: the MD5 hexdigest of the title and the link joined by a colon. -/
def newsHash (title link : String) : String := md5hex (title ++ ":" ++ link)

/-- The fingerprint of an item, when it has title and link fields. -/
def newsFingerprint : NewsValue → Option String
  | .other => none
  | .dict fs =>
    match lookupField fs "title", lookupField fs "link" with
    | some t, some l => some (newsHash t l)
    | _, _ => none

/-- is_news_posted (lines 424-435): a non-dict item, or one missing the
title or link field, counts as already posted (it is skipped); otherwise the
answer is membership of the MD5 hash in the store. -/
def is_news_posted (posted : PostedStore) : NewsValue → Bool
  | .other => true
  | .dict fs =>
    match lookupField fs "title", lookupField fs "link" with
    | some t, some l => storeMem (newsHash t l) posted
    | _, _ => true

/-- mark_as_posted (lines 437-447): store the title and the current time
under the hash. A KeyError from a missing field, or a TypeError from a
non-dict item, is caught by the except branch and leaves the store
unchanged; datetime.now() is modelled by the now parameter, in seconds. -/
def mark_as_posted (now : Int) (posted : PostedStore) : NewsValue → PostedStore
  | .other => posted
  | .dict fs =>
    match lookupField fs "title", lookupField fs "link" with
    | some t, some l => setKey posted (newsHash t l) (.entry (some t) (.time now))
    | _, _ => posted

/-- timedelta(days=d), in seconds. -/
def timedeltaDays (d : Int) : Int := d * 86400

/-- Whether clean_old_posts (lines 455-467) puts one stored value on the
to_remove list at time now: non-dict values and entries without a timestamp
key (line 457), entries whose timestamp fails to parse (line 465), and
entries strictly older than the retention window (line 463). -/
def staleEntry (now days : Int) : StoredVal → Bool
  | .nonDict => true
  | .entry _ .absent => true
  | .entry _ .unparsable => true
  | .entry _ (.time t) => now - t > timedeltaDays days

/-- clean_old_posts (lines 449-476) on stores of the TypeError-free
fragment: drop every stale entry. The source collects the stale keys and
pops them; on a store with unique keys that is the same as filtering the
entries. The full behavior on arbitrary store states, including the abort
when an entry raises TypeError, is clean_old_posts_full below;
clean_old_posts_full_agrees shows the two agree on this fragment. -/
def clean_old_posts (now : Int) (days : Int) (posted : PostedStore) : PostedStore :=
  posted.filter (fun p => !(staleEntry now days p.2))

/-- The timestamp field of a stored entry as the pruning pass sees it, in
full: beyond the TsField cases, the value under the timestamp key may not
be a string at all — datetime.fromisoformat then raises TypeError — or it
may be an offset-aware ISO string, which parses but makes the subtraction
of an aware datetime from the naive now at line 463 raise TypeError. Both
are reachable states of a JSON store file. -/
inductive TsFull where
  | absent
  | unparsable
  | notString
  | aware (t : Int)
  | time (t : Int)
deriving DecidableEq

/-- A stored value over the full timestamp type. -/
inductive StoredValFull where
  | entry (title : Option String) (ts : TsFull)
  | nonDict
deriving DecidableEq

abbrev PostedStoreFull := List (String × StoredValFull)

/-- A state of the durable file over the full store type. -/
inductive StoreFileFull where
  | missing
  | unparsable
  | parsed (posted : PostedStoreFull)

/-- load_posted_news (lines 43-50) over the full store type. -/
def load_posted_news_full : StoreFileFull → PostedStoreFull
  | .missing => []
  | .unparsable => []
  | .parsed posted => posted

/-- Whether processing this stored value makes the pruning pass raise a
TypeError that the per-entry handler at line 465 — catching only ValueError
and KeyError — lets through: a non-string timestamp value, where
fromisoformat raises, or an offset-aware timestamp, where the subtraction
at line 463 raises. -/
def entryRaisesTypeError : StoredValFull → Bool
  | .entry _ .notString => true
  | .entry _ (.aware _) => true
  | _ => false

/-- Whether the per-entry code of clean_old_posts puts this stored value on
the to_remove list, for values it processes without raising; a value that
raises never reaches a verdict, so its result here is unused. -/
def staleEntryFull (now days : Int) : StoredValFull → Bool
  | .nonDict => true
  | .entry _ .absent => true
  | .entry _ .unparsable => true
  | .entry _ .notString => false
  | .entry _ (.aware _) => false
  | .entry _ (.time t) => now - t > timedeltaDays days

/-- clean_old_posts (lines 449-476) in full: an entry that raises TypeError
aborts the collection loop before anything is popped — the outer handler at
line 475 logs the exception and the store is returned unchanged, however
stale its other entries are. Only when no entry raises does the pass drop
every stale entry, as in clean_old_posts. -/
def clean_old_posts_full (now days : Int) (posted : PostedStoreFull) : PostedStoreFull :=
  if posted.any (fun p => entryRaisesTypeError p.2) then posted
  else posted.filter (fun p => !(staleEntryFull now days p.2))

/-- The embedding of the TypeError-free timestamp states into the full type. -/
def tsEmbed : TsField → TsFull
  | .absent => .absent
  | .unparsable => .unparsable
  | .time t => .time t

/-- The embedding of TypeError-free stored values into the full type. -/
def storedEmbed : StoredVal → StoredValFull
  | .entry ti ts => .entry ti (tsEmbed ts)
  | .nonDict => .nonDict

/-- The embedding of TypeError-free stores into the full type. -/
def storeEmbed (posted : PostedStore) : PostedStoreFull :=
  posted.map (fun p => (p.1, storedEmbed p.2))

/-- The validity check shared by post_news_to_channel (line 480) and the
per-source validation in check_and_post_news (lines 518 and 524): a dict
with title, link and source keys. -/
def validNewsItem : NewsValue → Bool
  | .other => false
  | .dict fs =>
    (lookupField fs "title").isSome && (lookupField fs "link").isSome &&
      (lookupField fs "source").isSome

/-- post_news_to_channel (lines 478-501): an invalid item is rejected with
False before any send; otherwise the Delivery Sink send (the oracle send)
either succeeds, in which case the item is marked posted and True is
returned, or raises, in which case the store is unchanged and False is
returned. Message formatting has no bearing on the result and is elided. -/
def post_news_to_channel (send : NewsValue → Bool) (now : Int) (posted : PostedStore)
    (item : NewsValue) : Bool × PostedStore :=
  if !(validNewsItem item) then (false, posted)
  else if send item then (true, mark_as_posted now posted item)
  else (false, posted)

/-- The observable outcome of one delivery loop: the updated store, the
posts_count, and the successfully delivered items in order. -/
structure CycleResult where
  posted : PostedStore
  postsCount : Nat
  delivered : List NewsValue
deriving DecidableEq

/-- The delivery loop of check_and_post_news (lines 534-545): skip items
already posted; otherwise post, count a success, and stop once posts_count
reaches 5. The delivered field records the successful sends in order. -/
def postNewsLoop (send : NewsValue → Bool) (now : Int) :
    List NewsValue → PostedStore → Nat → List NewsValue → CycleResult
  | [], posted, count, delivered => ⟨posted, count, delivered⟩
  | item :: rest, posted, count, delivered =>
    if is_news_posted posted item then postNewsLoop send now rest posted count delivered
    else
      match post_news_to_channel send now posted item with
      | (success, posted1) =>
        let count1 := if success then count + 1 else count
        let delivered1 := if success then delivered ++ [item] else delivered
        if count1 ≥ 5 then ⟨posted1, count1, delivered1⟩
        else postNewsLoop send now rest posted1 count1 delivered1

/-- check_and_post_news (lines 503-550): prune with the default 7-day
window, validate each fetched list, concatenate CoinDesk before
CoinTelegraph, and run the delivery loop from a zero count. The two fetched
candidate lists are parameters standing for the fetch results. -/
def check_and_post_news (send : NewsValue → Bool) (now : Int)
    (coindesk cointelegraph : List NewsValue) (posted : PostedStore) : CycleResult :=
  let posted1 := clean_old_posts now 7 posted
  let all_news := coindesk.filter validNewsItem ++ cointelegraph.filter validNewsItem
  postNewsLoop send now all_news posted1 0 []

/-! ## Candidate acceptance in the CoinDesk extraction code -/

/-- Python truthiness of an optional string: present and non-empty. -/
def truthy : Option String → Bool
  | none => false
  | some s => !(s == "")

/-- Substring test on character lists, as the Python in operator on str. -/
def listContains (s pat : List Char) : Bool :=
  if pat.isPrefixOf s then true
  else
    match s with
    | [] => false
    | _ :: rest => listContains rest pat

def strContains (s pat : String) : Bool := listContains s.data pat.data

/-- Python str.startswith, on the character lists. -/
def strStartsWith (s pat : String) : Bool := pat.data.isPrefixOf s.data

/-- str.lower(), on the ASCII letters the blocklist phrases use. -/
def strLower (s : String) : String := String.mk (s.data.map Char.toLower)

/-- The phrases excluding a harvested anchor as navigation (line 134). -/
def navBlocklist : List String := ["contact", "about us", "advertise", "sign up", "log in"]

/-- Listing-mode candidate acceptance for CoinDesk (lines 170-184): resolve
the link to an absolute URL, then require a truthy title, a truthy link and
a title length strictly above 10; the accepted record carries title, link
and source fields. -/
def coindeskListingCandidate (title0 link0 : Option String) : Option NewsValue :=
  let link1 := match link0 with
    | some l => some (if truthy (some l) && !(strStartsWith l "http") then
        "https://www.coindesk.com" ++ l else l)
    | none => none
  if truthy title0 && truthy link1 && (title0.getD "").length > 10 then
    some (.dict [("title", title0.getD ""), ("link", link1.getD ""), ("source", "CoinDesk")])
  else none

/-- Link-harvesting candidate acceptance for CoinDesk (lines 113-141): skip
anchors without a truthy href or with /tag/ or # in the href (line 116),
resolve the href to absolute, then require a truthy title of length
strictly above 15 (line 132) that contains no blocklisted phrase
(line 134). -/
def coindeskHarvestCandidate (title0 href0 : Option String) : Option NewsValue :=
  match href0 with
  | none => none
  | some href =>
    if !(truthy (some href)) || strContains href "/tag/" || strContains href "#" then none
    else
      let href1 := if !(strStartsWith href "http") then "https://www.coindesk.com" ++ href
        else href
      match title0 with
      | none => none
      | some title =>
        if truthy (some title) && title.length > 15 then
          if navBlocklist.any (fun p => strContains (strLower title) p) then none
          else some (.dict [("title", title), ("link", href1), ("source", "CoinDesk")])
        else none

/-! ## Summary extraction -/

/-- Character-wise truncation to the first n characters. -/
def strTake (s : String) (n : Nat) : String := String.mk (s.data.take n)

/-- Splitting on whitespace runs, accumulating the current word reversed. -/
def splitWsAux : List Char → List Char → List String
  | [], acc => if acc.isEmpty then [] else [String.mk acc.reverse]
  | c :: rest, acc =>
    if c.isWhitespace then
      if acc.isEmpty then splitWsAux rest [] else String.mk acc.reverse :: splitWsAux rest []
    else splitWsAux rest (c :: acc)

/-- Python s.split() with no argument: the whitespace-separated words. -/
def pySplit (s : String) : List String := splitWsAux s.data []

/-- Joining words with single spaces. -/
def joinSpace : List String → String
  | [] => ""
  | [w] => w
  | w :: rest1 :: rest => w ++ " " ++ joinSpace (rest1 :: rest)

/-- Whitespace normalization in the sense of Python " ".join(s.split()). -/
def normalizeWhitespace (s : String) : String := joinSpace (pySplit s)

/-- Modelled from the spec: summary extraction is described in section 4.1
of the spec but has no counterpart in src/main.py (neither fetch source
defines it). Given the lead paragraph of the article page, or none when the
page could not be fetched or holds no paragraph, the spec says to normalize
whitespace and truncate to 300 characters with a trailing ellipsis marker
if truncated. -/
def extractSummary (paragraph0 : Option String) : Option String :=
  match paragraph0 with
  | none => none
  | some p =>
    let t := normalizeWhitespace p
    some (if t.length > 300 then strTake t 300 ++ "..." else t)


/-! ## Concrete test data -/

/-- A Delivery Sink oracle that accepts every message. -/
def sendAlways : NewsValue → Bool := fun _ => true

/-- A well-formed candidate record as the fetchers build them. -/
def sampleNews (t l : String) : NewsValue :=
  .dict [("title", t), ("link", l), ("source", "CoinDesk")]

/-- Twelve concrete candidates with pairwise distinct fingerprints. -/
def sampleItems : List NewsValue :=
  [sampleNews "t1" "l1", sampleNews "t2" "l2", sampleNews "t3" "l3", sampleNews "t4" "l4",
   sampleNews "t5" "l5", sampleNews "t6" "l6", sampleNews "t7" "l7", sampleNews "t8" "l8",
   sampleNews "t9" "l9", sampleNews "t10" "l10", sampleNews "t11" "l11", sampleNews "t12" "l12"]

/-- A 350-character paragraph with no whitespace. -/
def para350 : String := String.mk (List.replicate 350 'a')

/-! ## MD5 reference digest -/

/-- The MD5 embedding reproduces the reference digest of abc. -/
theorem md5hex_abc : md5hex "abc" = "900150983cd24fb0d6963f7d28e17f72" := by decide

/-! ## Store lemmas -/

theorem storeMem_iff (k : String) (posted : PostedStore) :
    storeMem k posted = true ↔ ∃ v, (k, v) ∈ posted := by
  unfold storeMem
  rw [List.any_eq_true]
  constructor
  · rintro ⟨⟨k1, v⟩, hmem, hbeq⟩
    simp only [beq_iff_eq] at hbeq
    subst hbeq
    exact ⟨v, hmem⟩
  · rintro ⟨v, hmem⟩
    exact ⟨(k, v), hmem, by simp⟩

theorem storeMem_setKey (posted : PostedStore) (k0 k : String) (v : StoredVal) :
    storeMem k (setKey posted k0 v) = true ↔ k = k0 ∨ storeMem k posted = true := by
  unfold setKey storeMem
  by_cases h : (posted.any fun p => p.1 == k0) = true
  · rw [if_pos h, List.any_map, List.any_eq_true]
    constructor
    · rintro ⟨p, hp, hq⟩
      simp only [Function.comp] at hq
      by_cases hk : p.1 = k0
      · rw [if_pos (by simp [hk])] at hq
        simp only [beq_iff_eq] at hq
        exact Or.inl hq.symm
      · rw [if_neg (by simp [hk])] at hq
        exact Or.inr (List.any_eq_true.mpr ⟨p, hp, hq⟩)
    · rintro (rfl | hmem)
      · obtain ⟨p, hp, hq⟩ := List.any_eq_true.mp h
        refine ⟨p, hp, ?_⟩
        simp only [Function.comp]
        rw [if_pos hq]
        simp
      · obtain ⟨p, hp, hq⟩ := List.any_eq_true.mp hmem
        refine ⟨p, hp, ?_⟩
        simp only [Function.comp]
        by_cases hk : p.1 = k0
        · rw [if_pos (by simp [hk])]
          have hkk : k0 = k := by
            rw [← hk]
            simpa using hq
          simp [hkk]
        · rw [if_neg (by simp [hk])]
          exact hq
  · rw [if_neg h, List.any_append]
    simp only [List.any_cons, List.any_nil, Bool.or_false, Bool.or_eq_true, beq_iff_eq]
    constructor
    · rintro (hmem | hk)
      · exact Or.inr hmem
      · exact Or.inl hk.symm
    · rintro (rfl | hmem)
      · exact Or.inr rfl
      · exact Or.inl hmem

theorem storeMem_mark (now : Int) (posted : PostedStore) (item : NewsValue) (k : String) :
    storeMem k (mark_as_posted now posted item) = true ↔
      newsFingerprint item = some k ∨ storeMem k posted = true := by
  cases item with
  | other => simp [mark_as_posted, newsFingerprint]
  | dict fs =>
    cases ht : lookupField fs "title" with
    | none => simp [mark_as_posted, newsFingerprint, ht]
    | some t =>
      cases hl : lookupField fs "link" with
      | none => simp [mark_as_posted, newsFingerprint, ht, hl]
      | some l =>
        simp only [mark_as_posted, newsFingerprint, ht, hl]
        rw [storeMem_setKey]
        simp only [Option.some.injEq]
        exact ⟨fun h => h.imp Eq.symm id, fun h => h.imp Eq.symm id⟩

theorem is_news_posted_fp (posted : PostedStore) (item : NewsValue) :
    is_news_posted posted item =
      (match newsFingerprint item with
       | some k => storeMem k posted
       | none => true) := by
  cases item with
  | other => rfl
  | dict fs =>
    cases ht : lookupField fs "title" <;> cases hl : lookupField fs "link" <;>
      simp [is_news_posted, newsFingerprint, ht, hl]

theorem is_news_posted_false_iff (posted : PostedStore) (item : NewsValue) :
    is_news_posted posted item = false ↔
      ∃ k, newsFingerprint item = some k ∧ storeMem k posted = false := by
  rw [is_news_posted_fp]
  cases h : newsFingerprint item <;> simp

theorem is_news_posted_true_of_fp (posted : PostedStore) (item : NewsValue) (k : String)
    (hfp : newsFingerprint item = some k) (hmem : storeMem k posted = true) :
    is_news_posted posted item = true := by
  rw [is_news_posted_fp, hfp]
  exact hmem

theorem clean_old_posts_subset (now days : Int) (posted : PostedStore) (p : String × StoredVal)
    (h : p ∈ clean_old_posts now days posted) : p ∈ posted :=
  (List.mem_filter.mp h).1

theorem storeMem_clean (now days : Int) (posted : PostedStore) (k : String)
    (h : storeMem k (clean_old_posts now days posted) = true) : storeMem k posted = true := by
  obtain ⟨v, hv⟩ := (storeMem_iff k _).mp h
  exact (storeMem_iff k posted).mpr ⟨v, clean_old_posts_subset now days posted _ hv⟩

theorem clean_old_posts_eq_self (now days : Int) (posted : PostedStore)
    (h : ∀ p ∈ posted, staleEntry now days p.2 = false) :
    clean_old_posts now days posted = posted := by
  unfold clean_old_posts
  exact List.filter_eq_self.mpr fun p hp => by simp [h p hp]

theorem setKey_values {α : Type} (l : List (String × α)) (k : String) (v : α)
    (p : String × α) (h : p ∈ setKey l k v) : p ∈ l ∨ p = (k, v) := by
  unfold setKey at h
  by_cases ha : (l.any fun q => q.1 == k) = true
  · rw [if_pos ha, List.mem_map] at h
    obtain ⟨q, hq, hfq⟩ := h
    by_cases hk : q.1 = k
    · rw [if_pos (by simp [hk])] at hfq
      exact Or.inr hfq.symm
    · rw [if_neg (by simp [hk])] at hfq
      exact Or.inl (hfq ▸ hq)
  · rw [if_neg ha, List.mem_append, List.mem_singleton] at h
    exact h

theorem mark_as_posted_values (now : Int) (posted : PostedStore) (item : NewsValue)
    (p : String × StoredVal) (h : p ∈ mark_as_posted now posted item) :
    p ∈ posted ∨ ∃ t0, p.2 = StoredVal.entry (some t0) (.time now) := by
  cases item with
  | other => exact .inl h
  | dict fs =>
    cases ht : lookupField fs "title" with
    | none =>
      simp only [mark_as_posted, ht] at h
      exact .inl h
    | some t =>
      cases hl : lookupField fs "link" with
      | none =>
        simp only [mark_as_posted, ht, hl] at h
        exact .inl h
      | some l =>
        simp only [mark_as_posted, ht, hl] at h
        rcases setKey_values _ _ _ _ h with hin | rfl
        · exact .inl hin
        · exact .inr ⟨t, rfl⟩

/-! ## Delivery lemmas -/

theorem post_news_fail (send : NewsValue → Bool) (now : Int) (posted : PostedStore)
    (item : NewsValue) (h : validNewsItem item = false ∨ send item = false) :
    post_news_to_channel send now posted item = (false, posted) := by
  unfold post_news_to_channel
  rcases h with h | h
  · simp [h]
  · by_cases hv : validNewsItem item <;> simp [hv, h]

theorem post_news_cases (send : NewsValue → Bool) (now : Int) (posted : PostedStore)
    (item : NewsValue) :
    (validNewsItem item = true ∧ send item = true ∧
      post_news_to_channel send now posted item = (true, mark_as_posted now posted item)) ∨
    post_news_to_channel send now posted item = (false, posted) := by
  by_cases hv : validNewsItem item = true
  · by_cases hs : send item = true
    · exact .inl ⟨hv, hs, by unfold post_news_to_channel; simp [hv, hs]⟩
    · exact .inr (post_news_fail _ _ _ _ (.inr (by simpa using hs)))
  · exact .inr (post_news_fail _ _ _ _ (.inl (by simpa using hv)))

theorem postNewsLoop_cons_posted (send : NewsValue → Bool) (now : Int) (item : NewsValue)
    (rest : List NewsValue) (posted : PostedStore) (count : Nat) (delivered : List NewsValue)
    (hp : is_news_posted posted item = true) :
    postNewsLoop send now (item :: rest) posted count delivered =
      postNewsLoop send now rest posted count delivered := by
  simp [postNewsLoop, hp]

theorem postNewsLoop_cons_success (send : NewsValue → Bool) (now : Int) (item : NewsValue)
    (rest : List NewsValue) (posted : PostedStore) (count : Nat) (delivered : List NewsValue)
    (hp : is_news_posted posted item = false)
    (hv : validNewsItem item = true) (hs : send item = true) :
    postNewsLoop send now (item :: rest) posted count delivered =
      if count + 1 ≥ 5 then ⟨mark_as_posted now posted item, count + 1, delivered ++ [item]⟩
      else postNewsLoop send now rest (mark_as_posted now posted item) (count + 1)
        (delivered ++ [item]) := by
  have hpc : post_news_to_channel send now posted item = (true, mark_as_posted now posted item) := by
    unfold post_news_to_channel
    simp [hv, hs]
  simp [postNewsLoop, hp, hpc]

theorem postNewsLoop_cons_fail (send : NewsValue → Bool) (now : Int) (item : NewsValue)
    (rest : List NewsValue) (posted : PostedStore) (count : Nat) (delivered : List NewsValue)
    (hp : is_news_posted posted item = false)
    (hpc : post_news_to_channel send now posted item = (false, posted)) :
    postNewsLoop send now (item :: rest) posted count delivered =
      if count ≥ 5 then ⟨posted, count, delivered⟩
      else postNewsLoop send now rest posted count delivered := by
  simp [postNewsLoop, hp, hpc]

theorem postNewsLoop_mem (send : NewsValue → Bool) (now : Int) :
    ∀ (items : List NewsValue) (posted : PostedStore) (count : Nat)
      (delivered : List NewsValue) (k : String),
      storeMem k (postNewsLoop send now items posted count delivered).posted = true →
      storeMem k posted = true ∨
        ∃ it, it ∈ items ∧ validNewsItem it = true ∧ send it = true ∧
          newsFingerprint it = some k := by
  intro items
  induction items with
  | nil =>
    intro posted count delivered k h
    exact .inl h
  | cons item rest ih =>
    intro posted count delivered k h
    by_cases hp : is_news_posted posted item = true
    · rw [postNewsLoop_cons_posted _ _ _ _ _ _ _ hp] at h
      rcases ih _ _ _ _ h with hm | ⟨it, hit, h1, h2, h3⟩
      · exact .inl hm
      · exact .inr ⟨it, List.mem_cons_of_mem _ hit, h1, h2, h3⟩
    · replace hp : is_news_posted posted item = false := by simpa using hp
      rcases post_news_cases send now posted item with ⟨hv, hs, hpc⟩ | hpc
      · rw [postNewsLoop_cons_success _ _ _ _ _ _ _ hp hv hs] at h
        by_cases h5 : count + 1 ≥ 5
        · rw [if_pos h5] at h
          rcases (storeMem_mark _ _ _ _).mp h with hfp | hm
          · exact .inr ⟨item, List.mem_cons_self _ _, hv, hs, hfp⟩
          · exact .inl hm
        · rw [if_neg h5] at h
          rcases ih _ _ _ _ h with hm | ⟨it, hit, h1, h2, h3⟩
          · rcases (storeMem_mark _ _ _ _).mp hm with hfp | hm2
            · exact .inr ⟨item, List.mem_cons_self _ _, hv, hs, hfp⟩
            · exact .inl hm2
          · exact .inr ⟨it, List.mem_cons_of_mem _ hit, h1, h2, h3⟩
      · rw [postNewsLoop_cons_fail _ _ _ _ _ _ _ hp hpc] at h
        by_cases h5 : count ≥ 5
        · rw [if_pos h5] at h
          exact .inl h
        · rw [if_neg h5] at h
          rcases ih _ _ _ _ h with hm | ⟨it, hit, h1, h2, h3⟩
          · exact .inl hm
          · exact .inr ⟨it, List.mem_cons_of_mem _ hit, h1, h2, h3⟩

theorem postNewsLoop_delivered (send : NewsValue → Bool) (now : Int) :
    ∀ (items : List NewsValue) (posted : PostedStore) (count : Nat)
      (delivered : List NewsValue) (it : NewsValue),
      it ∈ (postNewsLoop send now items posted count delivered).delivered →
      it ∈ delivered ∨ (it ∈ items ∧ validNewsItem it = true ∧ send it = true) := by
  intro items
  induction items with
  | nil =>
    intro posted count delivered it h
    exact .inl h
  | cons item rest ih =>
    intro posted count delivered it h
    by_cases hp : is_news_posted posted item = true
    · rw [postNewsLoop_cons_posted _ _ _ _ _ _ _ hp] at h
      rcases ih _ _ _ _ h with hd | ⟨hit, h1, h2⟩
      · exact .inl hd
      · exact .inr ⟨List.mem_cons_of_mem _ hit, h1, h2⟩
    · replace hp : is_news_posted posted item = false := by simpa using hp
      rcases post_news_cases send now posted item with ⟨hv, hs, hpc⟩ | hpc
      · rw [postNewsLoop_cons_success _ _ _ _ _ _ _ hp hv hs] at h
        by_cases h5 : count + 1 ≥ 5
        · rw [if_pos h5] at h
          rcases List.mem_append.mp h with hd | hone
          · exact .inl hd
          · rw [List.mem_singleton] at hone
            subst hone
            exact .inr ⟨List.mem_cons_self _ _, hv, hs⟩
        · rw [if_neg h5] at h
          rcases ih _ _ _ _ h with hd | ⟨hit, h1, h2⟩
          · rcases List.mem_append.mp hd with hd2 | hone
            · exact .inl hd2
            · rw [List.mem_singleton] at hone
              subst hone
              exact .inr ⟨List.mem_cons_self _ _, hv, hs⟩
          · exact .inr ⟨List.mem_cons_of_mem _ hit, h1, h2⟩
      · rw [postNewsLoop_cons_fail _ _ _ _ _ _ _ hp hpc] at h
        by_cases h5 : count ≥ 5
        · rw [if_pos h5] at h
          exact .inl h
        · rw [if_neg h5] at h
          rcases ih _ _ _ _ h with hd | ⟨hit, h1, h2⟩
          · exact .inl hd
          · exact .inr ⟨List.mem_cons_of_mem _ hit, h1, h2⟩

theorem postNewsLoop_mono (send : NewsValue → Bool) (now : Int) :
    ∀ (items : List NewsValue) (posted : PostedStore) (count : Nat)
      (delivered : List NewsValue) (k : String),
      storeMem k posted = true →
      storeMem k (postNewsLoop send now items posted count delivered).posted = true := by
  intro items
  induction items with
  | nil =>
    intro posted count delivered k h
    exact h
  | cons item rest ih =>
    intro posted count delivered k h
    by_cases hp : is_news_posted posted item = true
    · rw [postNewsLoop_cons_posted _ _ _ _ _ _ _ hp]
      exact ih _ _ _ _ h
    · replace hp : is_news_posted posted item = false := by simpa using hp
      rcases post_news_cases send now posted item with ⟨hv, hs, hpc⟩ | hpc
      · rw [postNewsLoop_cons_success _ _ _ _ _ _ _ hp hv hs]
        have hmark : storeMem k (mark_as_posted now posted item) = true :=
          (storeMem_mark _ _ _ _).mpr (.inr h)
        by_cases h5 : count + 1 ≥ 5
        · rw [if_pos h5]
          exact hmark
        · rw [if_neg h5]
          exact ih _ _ _ _ hmark
      · rw [postNewsLoop_cons_fail _ _ _ _ _ _ _ hp hpc]
        by_cases h5 : count ≥ 5
        · rw [if_pos h5]
          exact h
        · rw [if_neg h5]
          exact ih _ _ _ _ h

theorem is_news_posted_mono (posted posted2 : PostedStore) (item : NewsValue)
    (hsub : ∀ k, storeMem k posted = true → storeMem k posted2 = true)
    (h : is_news_posted posted item = true) : is_news_posted posted2 item = true := by
  rw [is_news_posted_fp] at h ⊢
  cases hfp : newsFingerprint item with
  | none => simp
  | some k =>
    rw [hfp] at h
    exact hsub k h

theorem postNewsLoop_all_posted (send : NewsValue → Bool) (now : Int) :
    ∀ (items : List NewsValue) (posted : PostedStore) (count : Nat) (delivered : List NewsValue),
      (∀ it ∈ items, is_news_posted posted it = true) →
      postNewsLoop send now items posted count delivered = ⟨posted, count, delivered⟩ := by
  intro items
  induction items with
  | nil =>
    intro posted count delivered _
    rfl
  | cons item rest ih =>
    intro posted count delivered hall
    rw [postNewsLoop_cons_posted _ _ _ _ _ _ _ (hall item (List.mem_cons_self _ _))]
    exact ih _ _ _ fun it hit => hall it (List.mem_cons_of_mem _ hit)

theorem storeMem_foldl_mark (now : Int) :
    ∀ (l : List NewsValue) (posted : PostedStore) (k : String),
      storeMem k (l.foldl (mark_as_posted now) posted) = true ↔
        (∃ it ∈ l, newsFingerprint it = some k) ∨ storeMem k posted = true := by
  intro l
  induction l with
  | nil =>
    intro posted k
    simp
  | cons item rest ih =>
    intro posted k
    rw [List.foldl_cons, ih, storeMem_mark]
    constructor
    · rintro (⟨it, hit, hfp⟩ | hfp | hm)
      · exact .inl ⟨it, List.mem_cons_of_mem _ hit, hfp⟩
      · exact .inl ⟨item, List.mem_cons_self _ _, hfp⟩
      · exact .inr hm
    · rintro (⟨it, hit, hfp⟩ | hm)
      · rcases List.mem_cons.mp hit with rfl | hit2
        · exact .inr (.inl hfp)
        · exact .inl ⟨it, hit2, hfp⟩
      · exact .inr (.inr hm)

theorem postNewsLoop_all_new (send : NewsValue → Bool) (now : Int) :
    ∀ (items : List NewsValue) (posted : PostedStore) (count : Nat) (delivered : List NewsValue),
      count < 5 →
      (∀ it ∈ items, validNewsItem it = true) →
      (∀ it ∈ items, is_news_posted posted it = false) →
      items.Pairwise (fun a b => newsFingerprint a ≠ newsFingerprint b) →
      (∀ it ∈ items, send it = true) →
      postNewsLoop send now items posted count delivered =
        ⟨(items.take (5 - count)).foldl (mark_as_posted now) posted,
         count + (items.take (5 - count)).length,
         delivered ++ items.take (5 - count)⟩ := by
  intro items
  induction items with
  | nil =>
    intro posted count delivered _ _ _ _ _
    simp [postNewsLoop]
  | cons item rest ih =>
    intro posted count delivered hc hvalid hnew hpw hsend
    have hp : is_news_posted posted item = false := hnew item (List.mem_cons_self _ _)
    have hv : validNewsItem item = true := hvalid item (List.mem_cons_self _ _)
    have hs : send item = true := hsend item (List.mem_cons_self _ _)
    rw [postNewsLoop_cons_success _ _ _ _ _ _ _ hp hv hs]
    have hpwhead := (List.pairwise_cons.mp hpw).1
    have hpwrest := (List.pairwise_cons.mp hpw).2
    by_cases h5 : count + 1 ≥ 5
    · rw [if_pos h5]
      have hc4 : count = 4 := by omega
      subst hc4
      simp
    · rw [if_neg h5]
      have hnew2 : ∀ it ∈ rest, is_news_posted (mark_as_posted now posted item) it = false := by
        intro it hit
        obtain ⟨k, hfpk, hmem⟩ :=
          (is_news_posted_false_iff _ _).mp (hnew it (List.mem_cons_of_mem _ hit))
        refine (is_news_posted_false_iff _ _).mpr ⟨k, hfpk, ?_⟩
        rw [Bool.eq_false_iff]
        intro hmm
        rcases (storeMem_mark _ _ _ _).mp hmm with hfp2 | hm2
        · exact hpwhead it hit (hfp2.trans hfpk.symm)
        · rw [hmem] at hm2
          exact Bool.false_ne_true hm2
      rw [ih (mark_as_posted now posted item) (count + 1) (delivered ++ [item]) (by omega)
        (fun it hit => hvalid it (List.mem_cons_of_mem _ hit)) hnew2 hpwrest
        (fun it hit => hsend it (List.mem_cons_of_mem _ hit))]
      have h51 : 5 - count = (5 - (count + 1)) + 1 := by omega
      rw [h51, List.take_succ_cons, List.foldl_cons, List.length_cons]
      simp only [CycleResult.mk.injEq]
      refine ⟨by simp, by omega, by simp⟩

theorem postNewsLoop_le5 (send : NewsValue → Bool) (now : Int) :
    ∀ (items : List NewsValue) (posted : PostedStore) (count : Nat) (delivered : List NewsValue),
      (∀ it ∈ items, send it = true) →
      (∀ it ∈ items, validNewsItem it = true) →
      count + items.length ≤ 5 →
      ∀ it ∈ items,
        is_news_posted (postNewsLoop send now items posted count delivered).posted it = true := by
  intro items
  induction items with
  | nil =>
    intro posted count delivered _ _ _ it hit
    simp at hit
  | cons item rest ih =>
    intro posted count delivered hsend hvalid hlen it hit
    by_cases hp : is_news_posted posted item = true
    · rw [postNewsLoop_cons_posted _ _ _ _ _ _ _ hp]
      rcases List.mem_cons.mp hit with rfl | hit2
      · exact is_news_posted_mono _ _ _
          (fun k hk => postNewsLoop_mono send now rest posted count delivered k hk) hp
      · exact ih posted count delivered (fun a ha => hsend a (List.mem_cons_of_mem _ ha))
          (fun a ha => hvalid a (List.mem_cons_of_mem _ ha))
          (by simp only [List.length_cons] at hlen; omega) it hit2
    · replace hp : is_news_posted posted item = false := by simpa using hp
      have hv := hvalid item (List.mem_cons_self _ _)
      have hs := hsend item (List.mem_cons_self _ _)
      rw [postNewsLoop_cons_success _ _ _ _ _ _ _ hp hv hs]
      by_cases h5 : count + 1 ≥ 5
      · rw [if_pos h5]
        have hrest : rest = [] := by
          simp only [List.length_cons] at hlen
          exact List.length_eq_zero.mp (by omega)
        subst hrest
        rcases List.mem_cons.mp hit with rfl | hit2
        · obtain ⟨k, hfpk, _⟩ := (is_news_posted_false_iff _ _).mp hp
          exact is_news_posted_true_of_fp _ _ _ hfpk ((storeMem_mark _ _ _ _).mpr (.inl hfpk))
        · simp at hit2
      · rw [if_neg h5]
        rcases List.mem_cons.mp hit with rfl | hit2
        · obtain ⟨k, hfpk, _⟩ := (is_news_posted_false_iff _ _).mp hp
          have hmarked : storeMem k (mark_as_posted now posted it) = true :=
            (storeMem_mark _ _ _ _).mpr (.inl hfpk)
          exact is_news_posted_mono _ _ _
            (fun k2 hk2 => postNewsLoop_mono send now rest _ _ _ k2 hk2)
            (is_news_posted_true_of_fp _ _ _ hfpk hmarked)
        · exact ih _ _ _ (fun a ha => hsend a (List.mem_cons_of_mem _ ha))
            (fun a ha => hvalid a (List.mem_cons_of_mem _ ha))
            (by simp only [List.length_cons] at hlen; omega) it hit2

theorem postNewsLoop_values (send : NewsValue → Bool) (now : Int) (Q : StoredVal → Prop)
    (hQ : ∀ t0, Q (.entry (some t0) (.time now))) :
    ∀ (items : List NewsValue) (posted : PostedStore) (count : Nat) (delivered : List NewsValue),
      (∀ p ∈ posted, Q p.2) →
      ∀ p ∈ (postNewsLoop send now items posted count delivered).posted, Q p.2 := by
  intro items
  induction items with
  | nil =>
    intro posted _ _ hall p hp
    exact hall p hp
  | cons item rest ih =>
    intro posted count delivered hall p hp
    by_cases hpo : is_news_posted posted item = true
    · rw [postNewsLoop_cons_posted _ _ _ _ _ _ _ hpo] at hp
      exact ih _ _ _ hall p hp
    · replace hpo : is_news_posted posted item = false := by simpa using hpo
      rcases post_news_cases send now posted item with ⟨hv, hs, hpc⟩ | hpc
      · rw [postNewsLoop_cons_success _ _ _ _ _ _ _ hpo hv hs] at hp
        have hmark : ∀ q ∈ mark_as_posted now posted item, Q q.2 := by
          intro q hq
          rcases mark_as_posted_values now posted item q hq with hin | ⟨t0, ht0⟩
          · exact hall q hin
          · rw [ht0]
            exact hQ t0
        by_cases h5 : count + 1 ≥ 5
        · rw [if_pos h5] at hp
          exact hmark p hp
        · rw [if_neg h5] at hp
          exact ih _ _ _ hmark p hp
      · rw [postNewsLoop_cons_fail _ _ _ _ _ _ _ hpo hpc] at hp
        by_cases h5 : count ≥ 5
        · rw [if_pos h5] at hp
          exact hall p hp
        · rw [if_neg h5] at hp
          exact ih _ _ _ hall p hp

/-! ## Field lookup lemmas -/

theorem lookupField_cons (p : String × String) (rest : List (String × String)) (k : String) :
    lookupField (p :: rest) k = if p.1 == k then some p.2 else lookupField rest k := by
  by_cases hp : (p.1 == k) = true
  · rw [if_pos hp]
    unfold lookupField
    rw [@List.find?_cons_of_pos _ (fun q => q.1 == k) p rest hp]
  · rw [if_neg hp]
    unfold lookupField
    rw [@List.find?_cons_of_neg _ (fun q => q.1 == k) p rest hp]

theorem lookupField_map_replace (fs : List (String × String)) (k v k2 : String) (h : k2 ≠ k) :
    lookupField (fs.map fun p => if p.1 == k then (k, v) else p) k2 = lookupField fs k2 := by
  induction fs with
  | nil => rfl
  | cons p rest ih =>
    rw [List.map_cons, lookupField_cons, lookupField_cons]
    by_cases hpk : p.1 = k
    · have hnew : (if p.1 == k then (k, v) else p) = (k, v) := by simp [hpk]
      rw [hnew]
      rw [if_neg (by simp [Ne.symm h]), if_neg (by simp [hpk, Ne.symm h])]
      exact ih
    · have hnew : (if p.1 == k then (k, v) else p) = p := by simp [hpk]
      rw [hnew]
      by_cases hp2 : (p.1 == k2) = true
      · rw [if_pos hp2, if_pos hp2]
      · rw [if_neg hp2, if_neg hp2]
        exact ih

theorem lookupField_append_other (fs : List (String × String)) (k v k2 : String) (h : k2 ≠ k) :
    lookupField (fs ++ [(k, v)]) k2 = lookupField fs k2 := by
  induction fs with
  | nil =>
    rw [List.nil_append, lookupField_cons, if_neg (by simp [Ne.symm h])]
  | cons p rest ih =>
    rw [List.cons_append, lookupField_cons, lookupField_cons]
    by_cases hp2 : (p.1 == k2) = true
    · rw [if_pos hp2, if_pos hp2]
    · rw [if_neg hp2, if_neg hp2]
      exact ih

theorem lookupField_setKey_ne (fs : List (String × String)) (k v k2 : String) (h : k2 ≠ k) :
    lookupField (setKey fs k v) k2 = lookupField fs k2 := by
  unfold setKey
  by_cases ha : (fs.any fun q => q.1 == k) = true
  · rw [if_pos ha]
    exact lookupField_map_replace fs k v k2 h
  · rw [if_neg ha]
    exact lookupField_append_other fs k v k2 h

/-! ## Claim theorems -/

/-- C2: the dedup fingerprint is a function of the title and link fields
alone: two dict items agreeing on title and link have the same fingerprint,
get the same is_news_posted answer on every store and the same
mark_as_posted update, and overwriting the summary field with any value
never changes the fingerprint of an item. -/
theorem fingerprint_depends_only_on_title_link (fs1 fs2 : List (String × String))
    (ht : lookupField fs1 "title" = lookupField fs2 "title")
    (hl : lookupField fs1 "link" = lookupField fs2 "link") :
    newsFingerprint (.dict fs1) = newsFingerprint (.dict fs2) ∧
    (∀ posted : PostedStore,
      is_news_posted posted (.dict fs1) = is_news_posted posted (.dict fs2)) ∧
    (∀ (now : Int) (posted : PostedStore),
      mark_as_posted now posted (.dict fs1) = mark_as_posted now posted (.dict fs2)) ∧
    (∀ v : String,
      newsFingerprint (.dict (setKey fs1 "summary" v)) = newsFingerprint (.dict fs1)) := by
  have hfp : newsFingerprint (.dict fs1) = newsFingerprint (.dict fs2) := by
    simp only [newsFingerprint, ht, hl]
  refine ⟨hfp, ?_, ?_, ?_⟩
  · intro posted
    rw [is_news_posted_fp, is_news_posted_fp, hfp]
  · intro now posted
    simp only [mark_as_posted, ht, hl]
  · intro v
    have h1 : lookupField (setKey fs1 "summary" v) "title" = lookupField fs1 "title" :=
      lookupField_setKey_ne _ _ _ _ (by decide)
    have h2 : lookupField (setKey fs1 "summary" v) "link" = lookupField fs1 "link" :=
      lookupField_setKey_ne _ _ _ _ (by decide)
    simp only [newsFingerprint, h1, h2]

/-- C2 witness: two concrete items with the same title and link but
different summary fields, in different field order, share a fingerprint and
an is_news_posted answer. -/
theorem fingerprint_depends_only_on_title_link_witness :
    newsFingerprint (.dict [("title", "t"), ("link", "l"), ("summary", "a")]) =
      newsFingerprint (.dict [("summary", "b"), ("title", "t"), ("link", "l")]) ∧
    (∀ posted : PostedStore,
      is_news_posted posted (.dict [("title", "t"), ("link", "l"), ("summary", "a")]) =
        is_news_posted posted (.dict [("summary", "b"), ("title", "t"), ("link", "l")])) ∧
    (∀ (now : Int) (posted : PostedStore),
      mark_as_posted now posted (.dict [("title", "t"), ("link", "l"), ("summary", "a")]) =
        mark_as_posted now posted (.dict [("summary", "b"), ("title", "t"), ("link", "l")])) ∧
    (∀ v : String,
      newsFingerprint
          (.dict (setKey [("title", "t"), ("link", "l"), ("summary", "a")] "summary" v)) =
        newsFingerprint (.dict [("title", "t"), ("link", "l"), ("summary", "a")])) :=
  fingerprint_depends_only_on_title_link
    [("title", "t"), ("link", "l"), ("summary", "a")]
    [("summary", "b"), ("title", "t"), ("link", "l")] (by decide) (by decide)

/-- C9: the fingerprint is the MD5 digest of title ++ ":" ++ link, so the
colon gives distinct records colliding fingerprints without an MD5
collision: title a:b with link c and title a with link b:c both hash the
string a:b:c, and once the first is marked posted the second is classified
as already posted. -/
theorem fingerprint_concat_not_injective :
    newsHash "a:b" "c" = md5hex "a:b:c" ∧
    newsHash "a:b" "c" = newsHash "a" "b:c" ∧
    (("a:b", "c") : String × String) ≠ ("a", "b:c") ∧
    is_news_posted (mark_as_posted 0 [] (.dict [("title", "a:b"), ("link", "c")]))
      (.dict [("title", "a"), ("link", "b:c")]) = true := by
  have hk : newsHash "a:b" "c" = newsHash "a" "b:c" := congrArg md5hex (by decide)
  refine ⟨congrArg md5hex (by decide), hk, by decide, ?_⟩
  have hfp1 : newsFingerprint (NewsValue.dict [("title", "a:b"), ("link", "c")]) =
      some (newsHash "a:b" "c") := rfl
  have hfp2 : newsFingerprint (NewsValue.dict [("title", "a"), ("link", "b:c")]) =
      some (newsHash "a" "b:c") := rfl
  apply is_news_posted_true_of_fp _ _ _ hfp2
  rw [storeMem_mark]
  left
  rw [hfp1, hk]

/-- C4: clean_old_posts removes an entry with a parsed timestamp exactly
when now minus that timestamp strictly exceeds the retention window; with
the default 7-day window an entry posted 8 days before now is removed and
one posted 6 days before now is retained. -/
theorem clean_old_posts_retention (now days : Int) (posted : PostedStore) (k : String)
    (ti : Option String) (t : Int)
    (hmem : (k, StoredVal.entry ti (.time t)) ∈ posted) :
    ((k, StoredVal.entry ti (.time t)) ∈ clean_old_posts now days posted ↔
      ¬(now - t > timedeltaDays days)) ∧
    (now - t = timedeltaDays 8 → days = 7 →
      (k, StoredVal.entry ti (.time t)) ∉ clean_old_posts now days posted) ∧
    (now - t = timedeltaDays 6 → days = 7 →
      (k, StoredVal.entry ti (.time t)) ∈ clean_old_posts now days posted) := by
  have hiff : (k, StoredVal.entry ti (.time t)) ∈ clean_old_posts now days posted ↔
      ¬(now - t > timedeltaDays days) := by
    unfold clean_old_posts
    rw [List.mem_filter]
    constructor
    · rintro ⟨_, hkeep⟩
      simp only [staleEntry] at hkeep
      simpa using hkeep
    · intro hle
      refine ⟨hmem, ?_⟩
      simp only [staleEntry]
      simpa using hle
  refine ⟨hiff, ?_, ?_⟩
  · intro h8 h7
    intro hin
    apply hiff.mp hin
    rw [h8, h7]
    unfold timedeltaDays
    omega
  · intro h6 h7
    rw [hiff, h6, h7]
    unfold timedeltaDays
    omega

/-- C4 witness: with now at day 8 an entry from time zero is pruned, and an
entry from day 2 is kept. -/
theorem clean_old_posts_retention_witness :
    ("h1", StoredVal.entry none (.time 0)) ∉
      clean_old_posts 691200 7 [("h1", StoredVal.entry none (.time 0))] ∧
    ("h2", StoredVal.entry none (.time 172800)) ∈
      clean_old_posts 691200 7 [("h2", StoredVal.entry none (.time 172800))] :=
  ⟨(clean_old_posts_retention 691200 7 _ "h1" none 0 (by decide)).2.1 (by decide) rfl,
   (clean_old_posts_retention 691200 7 _ "h2" none 172800 (by decide)).2.2 (by decide) rfl⟩

theorem storedEmbed_no_typeerror (v : StoredVal) :
    entryRaisesTypeError (storedEmbed v) = false := by
  cases v with
  | nonDict => rfl
  | entry ti ts => cases ts <;> rfl

theorem staleEntryFull_embed (now days : Int) (v : StoredVal) :
    staleEntryFull now days (storedEmbed v) = staleEntry now days v := by
  cases v with
  | nonDict => rfl
  | entry ti ts => cases ts <;> rfl

theorem filter_storeEmbed (now days : Int) (posted : PostedStore) :
    ((posted.map fun p => (p.1, storedEmbed p.2)).filter
        fun p => !(staleEntryFull now days p.2)) =
      (posted.filter fun p => !(staleEntry now days p.2)).map
        fun p => (p.1, storedEmbed p.2) := by
  induction posted with
  | nil => rfl
  | cons p rest ih =>
    simp only [List.map_cons, List.filter_cons, staleEntryFull_embed]
    by_cases hs : staleEntry now days p.2 = true
    · simp only [hs, Bool.not_true, Bool.false_eq_true, if_false]
      exact ih
    · have hsf : staleEntry now days p.2 = false := by simpa using hs
      simp only [hsf, Bool.not_false, if_true, List.map_cons]
      rw [ih]

/-- On stores of the TypeError-free fragment the full pruning pass agrees
with the per-entry filter clean_old_posts, which justifies stating the
retention and delivery-cycle claims over the restricted store type. -/
theorem clean_old_posts_full_agrees (now days : Int) (posted : PostedStore) :
    clean_old_posts_full now days (storeEmbed posted) =
      storeEmbed (clean_old_posts now days posted) := by
  unfold clean_old_posts_full clean_old_posts storeEmbed
  have hno : ¬(((posted.map fun p => (p.1, storedEmbed p.2)).any
      fun p => entryRaisesTypeError p.2) = true) := by
    intro hany
    obtain ⟨p, hp, hraise⟩ := List.any_eq_true.mp hany
    obtain ⟨q, _, rfl⟩ := List.mem_map.mp hp
    rw [storedEmbed_no_typeerror] at hraise
    exact Bool.false_ne_true hraise
  rw [if_neg hno]
  exact filter_storeEmbed now days posted

/-- C7 counterexample: a JSON-loadable store holding one entry whose
timestamp value is not a string — fromisoformat raises TypeError, which the
per-entry handler catching only ValueError and KeyError lets through — and
one well-formed entry 8 days old. The TypeError aborts the pruning pass
through the outer handler, so the pass removes nothing: the badly
timestamped entry survives, though the claim says it is removed, and even
the stale well-formed entry survives. -/
theorem typeerror_entry_survives_pruning_counterexample :
    clean_old_posts_full 691200 7
        [("h1", StoredValFull.entry (some "x") .notString),
         ("h2", StoredValFull.entry (some "y") (.time 0))] =
      [("h1", StoredValFull.entry (some "x") .notString),
       ("h2", StoredValFull.entry (some "y") (.time 0))] ∧
    staleEntryFull 691200 7 (StoredValFull.entry (some "y") (.time 0)) = true ∧
    load_posted_news_full (.parsed
        [("h1", StoredValFull.entry (some "x") .notString),
         ("h2", StoredValFull.entry (some "y") (.time 0))]) =
      [("h1", StoredValFull.entry (some "x") .notString),
       ("h2", StoredValFull.entry (some "y") (.time 0))] :=
  ⟨by decide, by decide, rfl⟩

/-- C7 amended: loading is never fatal — a missing or unparsable file loads
as the empty store — and a stored pair whose value is not a dict, lacks a
timestamp key, or has a timestamp string the parser rejects with ValueError
is removed by the next pruning pass, provided no entry of the store raises
TypeError. An entry whose timestamp raises TypeError — a non-string value,
or an offset-aware string — is never removed: it aborts the pruning pass,
which the outer handler absorbs, leaving the whole store unchanged. -/
theorem load_and_prune_corruption_behavior (now days : Int) (posted : PostedStoreFull)
    (k : String) (v : StoredValFull) :
    load_posted_news_full .missing = [] ∧
    load_posted_news_full .unparsable = [] ∧
    ((v = .nonDict ∨ (∃ ti, v = .entry ti .absent) ∨ (∃ ti, v = .entry ti .unparsable)) →
      (∀ p ∈ posted, entryRaisesTypeError p.2 = false) →
      (k, v) ∉ clean_old_posts_full now days posted) ∧
    (entryRaisesTypeError v = true → (k, v) ∈ posted →
      clean_old_posts_full now days posted = posted) := by
  refine ⟨rfl, rfl, ?_, ?_⟩
  · intro hbad hclean hin
    unfold clean_old_posts_full at hin
    have hno : ¬((posted.any fun p => entryRaisesTypeError p.2) = true) := by
      intro hany
      obtain ⟨p, hp, hraise⟩ := List.any_eq_true.mp hany
      rw [hclean p hp] at hraise
      exact Bool.false_ne_true hraise
    rw [if_neg hno] at hin
    have hkeep := (List.mem_filter.mp hin).2
    have hstale : staleEntryFull now days v = true := by
      rcases hbad with rfl | ⟨ti, rfl⟩ | ⟨ti, rfl⟩ <;> rfl
    rw [hstale] at hkeep
    simp at hkeep
  · intro hv hmem
    unfold clean_old_posts_full
    rw [if_pos (List.any_eq_true.mpr ⟨(k, v), hmem, hv⟩)]

/-- C7 witness: with no TypeError entry present, a ValueError-timestamped
entry is removed by pruning, while a store holding a non-string timestamp
passes through pruning unchanged. -/
theorem load_and_prune_corruption_behavior_witness :
    ("h1", StoredValFull.entry none .unparsable) ∉
      clean_old_posts_full 0 7 [("h1", StoredValFull.entry none .unparsable)] ∧
    clean_old_posts_full 0 7 [("h2", StoredValFull.entry none .notString)] =
      [("h2", StoredValFull.entry none .notString)] := by
  have h1 := load_and_prune_corruption_behavior 0 7
    [("h1", StoredValFull.entry none .unparsable)] "h1" (.entry none .unparsable)
  have h2 := load_and_prune_corruption_behavior 0 7
    [("h2", StoredValFull.entry none .notString)] "h2" (.entry none .notString)
  exact ⟨h1.2.2.1 (.inr (.inr ⟨none, rfl⟩)) (by decide), h2.2.2.2 (by decide) (by decide)⟩

/-- C10: a malformed item never reaches the Delivery Sink: is_news_posted
answers true for a non-dict item and for a dict missing its title or link
field, post_news_to_channel rejects an invalid item with False without
consulting the sink, and every item a cycle delivers is a valid dict. -/
theorem malformed_items_never_delivered :
    (∀ (posted : PostedStore) (fs : List (String × String)),
      lookupField fs "title" = none ∨ lookupField fs "link" = none →
      is_news_posted posted (.dict fs) = true) ∧
    (∀ posted : PostedStore, is_news_posted posted .other = true) ∧
    (∀ (send send2 : NewsValue → Bool) (now : Int) (posted : PostedStore) (item : NewsValue),
      validNewsItem item = false →
      post_news_to_channel send now posted item = (false, posted) ∧
      post_news_to_channel send now posted item = post_news_to_channel send2 now posted item) ∧
    (∀ (send : NewsValue → Bool) (now : Int) (cd ct : List NewsValue) (posted : PostedStore)
      (it : NewsValue),
      it ∈ (check_and_post_news send now cd ct posted).delivered →
      validNewsItem it = true) := by
  refine ⟨?_, ?_, ?_, ?_⟩
  · intro posted fs h
    rcases h with ht | hl
    · cases hl : lookupField fs "link" <;> simp [is_news_posted, ht, hl]
    · cases ht : lookupField fs "title" <;> simp [is_news_posted, ht, hl]
  · intro posted
    rfl
  · intro send send2 now posted item hv
    have h1 := post_news_fail send now posted item (.inl hv)
    have h2 := post_news_fail send2 now posted item (.inl hv)
    exact ⟨h1, h1.trans h2.symm⟩
  · intro send now cd ct posted it h
    simp only [check_and_post_news] at h
    rcases postNewsLoop_delivered send now _ _ _ _ it h with hd | ⟨_, hvalid, _⟩
    · simp at hd
    · exact hvalid

/-- C10 witness: a dict lacking a link field and a non-dict value both count
as already posted on the empty store, and an invalid item is rejected
without a send. -/
theorem malformed_items_never_delivered_witness :
    is_news_posted [] (.dict [("title", "t")]) = true ∧
    is_news_posted [] .other = true ∧
    post_news_to_channel (fun _ => true) 0 [] (.dict [("title", "t")]) = (false, []) :=
  ⟨malformed_items_never_delivered.1 [] [("title", "t")] (.inr (by decide)),
   malformed_items_never_delivered.2.1 [],
   (malformed_items_never_delivered.2.2.1 (fun _ => true) (fun _ => false) 0 []
     (.dict [("title", "t")]) (by decide)).1⟩

/-- C1: the store records exactly the successful deliveries:
post_news_to_channel returns True exactly when the item is valid and the
sink send succeeds, marking the item posted in that case and leaving the
store unchanged otherwise; after a full cycle every stored key was already
present or is the fingerprint of a valid item whose send succeeded; and an
item whose fingerprint is absent from the store and which no successful
send shares stays absent and eligible for the next cycle. -/
theorem store_records_only_successful_deliveries :
    (∀ (send : NewsValue → Bool) (now : Int) (posted : PostedStore) (item : NewsValue),
      ((post_news_to_channel send now posted item).1 = true ↔
        validNewsItem item = true ∧ send item = true) ∧
      ((post_news_to_channel send now posted item).1 = true →
        (post_news_to_channel send now posted item).2 = mark_as_posted now posted item) ∧
      ((post_news_to_channel send now posted item).1 = false →
        (post_news_to_channel send now posted item).2 = posted)) ∧
    (∀ (send : NewsValue → Bool) (now : Int) (cd ct : List NewsValue) (posted : PostedStore)
      (k : String),
      storeMem k (check_and_post_news send now cd ct posted).posted = true →
      storeMem k posted = true ∨
        ∃ it, (it ∈ cd ∨ it ∈ ct) ∧ validNewsItem it = true ∧ send it = true ∧
          newsFingerprint it = some k) ∧
    (∀ (send : NewsValue → Bool) (now : Int) (cd ct : List NewsValue) (posted : PostedStore)
      (item : NewsValue) (k : String),
      newsFingerprint item = some k →
      storeMem k posted = false →
      (∀ it, it ∈ cd ∨ it ∈ ct → newsFingerprint it = some k → send it = false) →
      is_news_posted (check_and_post_news send now cd ct posted).posted item = false) := by
  refine ⟨?_, ?_, ?_⟩
  · intro send now posted item
    by_cases hv : validNewsItem item = true
    · by_cases hs : send item = true
      · have hpc : post_news_to_channel send now posted item =
            (true, mark_as_posted now posted item) := by
          unfold post_news_to_channel
          simp [hv, hs]
        rw [hpc]
        exact ⟨by simp [hv, hs], fun _ => rfl, fun h => by simp at h⟩
      · have hpc := post_news_fail send now posted item (.inr (by simpa using hs))
        rw [hpc]
        exact ⟨by simp [hs], fun h => by simp at h, fun _ => rfl⟩
    · have hpc := post_news_fail send now posted item (.inl (by simpa using hv))
      rw [hpc]
      exact ⟨by simp [hv], fun h => by simp at h, fun _ => rfl⟩
  · intro send now cd ct posted k h
    simp only [check_and_post_news] at h
    rcases postNewsLoop_mem send now _ _ _ _ _ h with hm | ⟨it, hit, h1, h2, h3⟩
    · exact .inl (storeMem_clean _ _ _ _ hm)
    · rcases List.mem_append.mp hit with hcd | hct
      · exact .inr ⟨it, .inl (List.mem_filter.mp hcd).1, h1, h2, h3⟩
      · exact .inr ⟨it, .inr (List.mem_filter.mp hct).1, h1, h2, h3⟩
  · intro send now cd ct posted item k hfp hmem hsendf
    simp only [check_and_post_news]
    rw [is_news_posted_fp, hfp]
    rw [Bool.eq_false_iff]
    intro hsm
    rcases postNewsLoop_mem send now _ _ _ _ _ hsm with hm | ⟨it, hit, _, h2, h3⟩
    · have := storeMem_clean _ _ _ _ hm
      rw [hmem] at this
      exact Bool.false_ne_true this
    · have hsf : send it = false := by
        apply hsendf it _ h3
        rcases List.mem_append.mp hit with hcd | hct
        · exact .inl (List.mem_filter.mp hcd).1
        · exact .inr (List.mem_filter.mp hct).1
      rw [h2] at hsf
      exact Bool.false_ne_true hsf.symm

/-- C3: a cycle over 12 valid candidates with pairwise distinct
fingerprints, none already in the store, where every send succeeds,
delivers exactly the first five (in order) and records them, and leaves the
remaining seven unrecorded and eligible for the next cycle. -/
theorem delivery_cap_five_of_twelve (send : NewsValue → Bool) (now : Int)
    (cd ct : List NewsValue) (posted : PostedStore)
    (hlen : (cd ++ ct).length = 12)
    (hvalid : ∀ it ∈ cd ++ ct, validNewsItem it = true)
    (hnew : ∀ it ∈ cd ++ ct, is_news_posted posted it = false)
    (hpw : (cd ++ ct).Pairwise fun a b => newsFingerprint a ≠ newsFingerprint b)
    (hsend : ∀ it ∈ cd ++ ct, send it = true) :
    (check_and_post_news send now cd ct posted).delivered = (cd ++ ct).take 5 ∧
    (check_and_post_news send now cd ct posted).postsCount = 5 ∧
    (∀ it ∈ (cd ++ ct).take 5,
      is_news_posted (check_and_post_news send now cd ct posted).posted it = true) ∧
    (∀ it ∈ (cd ++ ct).drop 5,
      is_news_posted (check_and_post_news send now cd ct posted).posted it = false) := by
  have hfcd : cd.filter validNewsItem = cd :=
    List.filter_eq_self.mpr fun it hit => hvalid it (List.mem_append.mpr (.inl hit))
  have hfct : ct.filter validNewsItem = ct :=
    List.filter_eq_self.mpr fun it hit => hvalid it (List.mem_append.mpr (.inr hit))
  have hnewc : ∀ it ∈ cd ++ ct, is_news_posted (clean_old_posts now 7 posted) it = false := by
    intro it hit
    obtain ⟨k, hfp, hm⟩ := (is_news_posted_false_iff _ _).mp (hnew it hit)
    refine (is_news_posted_false_iff _ _).mpr ⟨k, hfp, ?_⟩
    rw [Bool.eq_false_iff]
    intro hmm
    have := storeMem_clean _ _ _ _ hmm
    rw [hm] at this
    exact Bool.false_ne_true this
  have hrun : check_and_post_news send now cd ct posted =
      ⟨((cd ++ ct).take 5).foldl (mark_as_posted now) (clean_old_posts now 7 posted),
       0 + ((cd ++ ct).take 5).length, [] ++ (cd ++ ct).take 5⟩ := by
    simp only [check_and_post_news, hfcd, hfct]
    have := postNewsLoop_all_new send now (cd ++ ct) (clean_old_posts now 7 posted) 0 []
      (by omega) hvalid hnewc hpw hsend
    simpa using this
  have htklen : ((cd ++ ct).take 5).length = 5 := by
    rw [List.length_take, hlen]
    decide
  have hdisj : ∀ it2 ∈ (cd ++ ct).take 5, ∀ it ∈ (cd ++ ct).drop 5,
      newsFingerprint it2 ≠ newsFingerprint it := by
    have hpw2 := hpw
    rw [← List.take_append_drop 5 (cd ++ ct)] at hpw2
    exact (List.pairwise_append.mp hpw2).2.2
  refine ⟨?_, ?_, ?_, ?_⟩
  · rw [hrun]
    simp
  · rw [hrun]
    simpa using htklen
  · intro it hit
    obtain ⟨k, hfp, _⟩ := (is_news_posted_false_iff _ _).mp
      (hnewc it (List.mem_of_mem_take hit))
    rw [hrun]
    exact is_news_posted_true_of_fp _ _ _ hfp
      ((storeMem_foldl_mark now _ _ _).mpr (.inl ⟨it, hit, hfp⟩))
  · intro it hit
    obtain ⟨k, hfp, hm⟩ := (is_news_posted_false_iff _ _).mp
      (hnewc it (List.mem_of_mem_drop hit))
    rw [hrun]
    refine (is_news_posted_false_iff _ _).mpr ⟨k, hfp, ?_⟩
    rw [Bool.eq_false_iff]
    intro hmm
    rcases (storeMem_foldl_mark now _ _ _).mp hmm with ⟨it2, hit2, hfp2⟩ | hm2
    · exact hdisj it2 hit2 it hit (hfp2.trans hfp.symm)
    · rw [hm] at hm2
      exact Bool.false_ne_true hm2


/-- C3 witness: a cycle over the twelve concrete candidates from the empty
store delivers exactly the first five and counts five posts. -/
theorem delivery_cap_five_of_twelve_witness :
    (check_and_post_news sendAlways 0 [] sampleItems []).delivered = sampleItems.take 5 ∧
    (check_and_post_news sendAlways 0 [] sampleItems []).postsCount = 5 := by
  have h := delivery_cap_five_of_twelve sendAlways 0 [] sampleItems []
    (by decide) (by decide) (by decide) (by decide) (by decide)
  exact ⟨h.1, h.2.1⟩

/-- C5 counterexample: six fresh candidates, every send succeeding. The
first cycle delivers only five because of the cap, so the second cycle on
the same candidate set delivers one more item, not zero. -/
theorem second_cycle_redelivers_with_six_candidates :
    (∀ it ∈ sampleItems.take 6, sendAlways it = true) ∧
    (check_and_post_news sendAlways 0 [] (sampleItems.take 6) []).postsCount = 5 ∧
    (check_and_post_news sendAlways 0 [] (sampleItems.take 6)
      (check_and_post_news sendAlways 0 [] (sampleItems.take 6) []).posted).postsCount = 1 := by
  refine ⟨fun it _ => rfl, ?_, ?_⟩ <;> decide

/-- C5 amended: a second cycle on the same candidate set delivers nothing
provided the first cycle could post every candidate: at most five
candidates, an empty store at the start of the first cycle, every send
succeeding, and the second cycle within the retention window of the first.
With more than five candidates the cap defers the surplus to the second
cycle. -/
theorem second_cycle_delivers_zero (send : NewsValue → Bool) (now1 now2 : Int)
    (cd ct : List NewsValue)
    (hlen : (cd ++ ct).length ≤ 5)
    (hsend : ∀ it, send it = true)
    (hwin : now2 - now1 ≤ timedeltaDays 7) :
    (check_and_post_news send now2 cd ct
      (check_and_post_news send now1 cd ct []).posted).postsCount = 0 ∧
    (check_and_post_news send now2 cd ct
      (check_and_post_news send now1 cd ct []).posted).delivered = [] := by
  have hflen : (cd.filter validNewsItem ++ ct.filter validNewsItem).length ≤ 5 := by
    rw [List.length_append] at hlen ⊢
    have h1 := List.length_filter_le validNewsItem cd
    have h2 := List.length_filter_le validNewsItem ct
    omega
  have hvalid : ∀ it ∈ cd.filter validNewsItem ++ ct.filter validNewsItem,
      validNewsItem it = true := by
    intro it hit
    rcases List.mem_append.mp hit with h | h
    · exact (List.mem_filter.mp h).2
    · exact (List.mem_filter.mp h).2
  set items := cd.filter validNewsItem ++ ct.filter validNewsItem with hitems
  have hcycle1 : check_and_post_news send now1 cd ct [] =
      postNewsLoop send now1 items [] 0 [] := rfl
  set s1 := (postNewsLoop send now1 items [] 0 []).posted with hs1
  have h1 : ∀ it ∈ items, is_news_posted s1 it = true :=
    postNewsLoop_le5 send now1 items [] 0 [] (fun it _ => hsend it) hvalid
      (by simpa using hflen)
  have hQ : ∀ t0, staleEntry now2 7 (StoredVal.entry (some t0) (TsField.time now1)) = false := by
    intro t0
    simp only [staleEntry, timedeltaDays, decide_eq_false_iff_not]
    unfold timedeltaDays at hwin
    omega
  have h2 : ∀ p ∈ s1, staleEntry now2 7 p.2 = false :=
    postNewsLoop_values send now1 (fun v => staleEntry now2 7 v = false) hQ items [] 0 []
      (fun p hp => absurd hp (List.not_mem_nil p))
  have hclean2 : clean_old_posts now2 7 s1 = s1 := clean_old_posts_eq_self _ _ _ h2
  have houter : check_and_post_news send now2 cd ct s1 = ⟨s1, 0, []⟩ := by
    simp only [check_and_post_news]
    rw [← hitems, hclean2]
    exact postNewsLoop_all_posted send now2 items s1 0 [] h1
  rw [hcycle1, ← hs1, houter]
  exact ⟨rfl, rfl⟩

/-- C5 witness: two candidates, both delivered in the first cycle; a second
cycle an hour later delivers nothing. -/
theorem second_cycle_delivers_zero_witness :
    (check_and_post_news sendAlways 3600 [] (sampleItems.take 2)
      (check_and_post_news sendAlways 0 [] (sampleItems.take 2) []).posted).postsCount = 0 :=
  (second_cycle_delivers_zero sendAlways 0 3600 [] (sampleItems.take 2) (by decide)
    (fun it => rfl) (by decide)).1

/-! ## Extraction lemmas -/

theorem string_append_ne_empty_left (base l : String) (h : base ≠ "") : base ++ l ≠ "" := by
  intro he
  apply h
  have hlen := congrArg String.length he
  rw [String.length_append] at hlen
  have h0 : base.length = 0 := by
    have hz : String.length "" = 0 := rfl
    omega
  cases base with
  | mk data =>
    cases data with
    | nil => rfl
    | cons c cs => simp [String.length] at h0

theorem truthy_absolutize (l : String) :
    truthy (some (if truthy (some l) && !(strStartsWith l "http") then
      "https://www.coindesk.com" ++ l else l)) = truthy (some l) := by
  by_cases hl : l = ""
  · subst hl
    simp [truthy]
  · have htl : truthy (some l) = true := by simp [truthy, hl]
    rw [htl]
    by_cases hp : (strStartsWith l "http") = true
    · simp only [htl, hp, Bool.not_true, Bool.and_false, Bool.false_eq_true, if_false]
    · have hpf : (strStartsWith l "http") = false := by simpa using hp
      have hne := string_append_ne_empty_left "https://www.coindesk.com" l (by decide)
      simp only [htl, hpf, Bool.not_false, Bool.and_true, if_true]
      simp [truthy, hne]

theorem listing_reject_iff (t0 l0 : Option String) :
    coindeskListingCandidate t0 l0 = none ↔
      truthy t0 = false ∨ truthy l0 = false ∨ (t0.getD "").length ≤ 10 := by
  cases t0 with
  | none => simp [coindeskListingCandidate, truthy]
  | some t =>
    cases l0 with
    | none => simp [coindeskListingCandidate, truthy]
    | some l =>
      simp only [coindeskListingCandidate, truthy_absolutize, Option.getD_some]
      by_cases ht : t = ""
      · simp [truthy, ht]
      · have htt : truthy (some t) = true := by simp [truthy, ht]
        by_cases hl : l = ""
        · simp [truthy, ht, hl, htt]
        · have htl : truthy (some l) = true := by simp [truthy, hl]
          by_cases hlen : t.length > 10
          · rw [if_pos (by rw [htt, htl]; simpa using hlen)]
            constructor
            · intro hsome
              exact absurd hsome (by simp)
            · rintro (hc | hc | hc)
              · rw [htt] at hc
                exact absurd hc (by simp)
              · rw [htl] at hc
                exact absurd hc (by simp)
              · omega
          · rw [if_neg (by rw [htt, htl]; simpa using hlen)]
            constructor
            · intro _
              right
              right
              omega
            · intro _
              rfl

theorem harvest_reject_iff (t0 : Option String) (href : String) :
    coindeskHarvestCandidate t0 (some href) = none ↔
      href = "" ∨ strContains href "/tag/" = true ∨ strContains href "#" = true ∨
      truthy t0 = false ∨ (t0.getD "").length ≤ 15 ∨
      (navBlocklist.any fun p => strContains (strLower (t0.getD "")) p) = true := by
  simp only [coindeskHarvestCandidate]
  by_cases hskip :
      (!(truthy (some href)) || strContains href "/tag/" || strContains href "#") = true
  · rw [if_pos hskip]
    constructor
    · intro _
      have hsk2 : (truthy (some href) = false ∨ strContains href "/tag/" = true) ∨
          strContains href "#" = true := by simpa using hskip
      rcases hsk2 with (h | h) | h
      · left
        simpa [truthy] using h
      · right
        left
        exact h
      · right
        right
        left
        exact h
    · intro _
      rfl
  · rw [if_neg hskip]
    have hcomp : (truthy (some href) = true ∧ strContains href "/tag/" = false) ∧
        strContains href "#" = false := by simpa using hskip
    obtain ⟨⟨ha, h2⟩, h3⟩ := hcomp
    have hhref : ¬(href = "") := by simpa [truthy] using ha
    cases t0 with
    | none => simp [truthy]
    | some title =>
      simp only [Option.getD_some]
      by_cases htt : (truthy (some title) && decide (title.length > 15)) = true
      · obtain ⟨ht1, hlen⟩ : truthy (some title) = true ∧ title.length > 15 := by
          simpa using htt
        have htit : ¬(title = "") := by simpa [truthy] using ht1
        rw [if_pos htt]
        by_cases hbl : (navBlocklist.any fun p => strContains (strLower title) p) = true
        · rw [if_pos hbl]
          constructor
          · intro _
            right
            right
            right
            right
            right
            exact hbl
          · intro _
            rfl
        · rw [if_neg hbl]
          constructor
          · intro hsome
            exact absurd hsome (by simp)
          · rintro (hc | hc | hc | hc | hc | hc)
            · exact absurd hc hhref
            · rw [h2] at hc
              exact absurd hc (by simp)
            · rw [h3] at hc
              exact absurd hc (by simp)
            · simp [truthy, htit] at hc
            · omega
            · exact absurd hc hbl
      · rw [if_neg htt]
        have httf : (truthy (some title) && decide (title.length > 15)) = false := by
          simpa using htt
        constructor
        · intro _
          cases hb1 : truthy (some title) with
          | false =>
            right
            right
            right
            left
            rfl
          | true =>
            cases hb2 : decide (title.length > 15) with
            | false =>
              right
              right
              right
              right
              left
              have := of_decide_eq_false hb2
              omega
            | true =>
              rw [hb1, hb2] at httf
              simp at httf
        · intro _
          rfl

theorem harvest_none_href (t0 : Option String) : coindeskHarvestCandidate t0 none = none := rfl

/-- C6 counterexample: a present title of length exactly 10 with a present,
non-empty link is rejected by the listing-mode check, although the claim
says a candidate is rejected only when the title or link is absent or the
title length is below 10. -/
theorem listing_rejects_length_ten_counterexample :
    coindeskListingCandidate (some "aaaaaaaaaa") (some "https://www.coindesk.com/a") = none ∧
    ("aaaaaaaaaa" : String).length = 10 ∧
    truthy (some "aaaaaaaaaa") = true ∧
    truthy (some "https://www.coindesk.com/a") = true :=
  ⟨by decide, by decide, by decide, by decide⟩

/-- C6 amended: listing-mode extraction rejects a candidate exactly when
the title is absent or empty, the link is absent or empty, or the title
length is at most 10, so length 9 is rejected and length 11 accepted;
link-harvesting extraction rejects exactly when the href is absent, empty
or contains /tag/ or a fragment mark, the title is absent or empty, the
title length is at most 15, or the lowercased title contains a blocklisted
phrase. -/
theorem extraction_reject_conditions :
    (∀ (t0 l0 : Option String),
      coindeskListingCandidate t0 l0 = none ↔
        truthy t0 = false ∨ truthy l0 = false ∨ (t0.getD "").length ≤ 10) ∧
    (∀ (t0 : Option String) (href : String),
      coindeskHarvestCandidate t0 (some href) = none ↔
        href = "" ∨ strContains href "/tag/" = true ∨ strContains href "#" = true ∨
        truthy t0 = false ∨ (t0.getD "").length ≤ 15 ∨
        (navBlocklist.any fun p => strContains (strLower (t0.getD "")) p) = true) ∧
    (∀ t0 : Option String, coindeskHarvestCandidate t0 none = none) ∧
    coindeskListingCandidate (some "aaaaaaaaa") (some "https://www.coindesk.com/a") = none ∧
    (coindeskListingCandidate (some "aaaaaaaaaaa") (some "https://www.coindesk.com/a")).isSome
      = true :=
  ⟨listing_reject_iff, harvest_reject_iff, harvest_none_href, by decide, by decide⟩


/-- C8 (modelled from the spec): summary extraction returns none when no
paragraph was found, returns a whitespace-normalized paragraph of at most
300 characters unmodified, and truncates a longer one to its first 300
characters followed by an ellipsis marker; a 350-character paragraph yields
exactly 300 characters plus the marker. -/
theorem extractSummary_truncation (p : String)
    (hnorm : normalizeWhitespace p = p) :
    extractSummary none = none ∧
    (p.length ≤ 300 → extractSummary (some p) = some p) ∧
    (p.length = 350 →
      extractSummary (some p) = some (strTake p 300 ++ "...") ∧
        (strTake p 300).length = 300) := by
  refine ⟨rfl, ?_, ?_⟩
  · intro hle
    simp only [extractSummary, hnorm]
    rw [if_neg (by omega)]
  · intro h350
    constructor
    · simp only [extractSummary, hnorm]
      rw [if_pos (by omega)]
    · show (String.mk (p.data.take 300)).length = 300
      have hmk : (String.mk (p.data.take 300)).length = (p.data.take 300).length := rfl
      have hl : p.data.length = 350 := h350
      rw [hmk, List.length_take, hl]
      decide

/-- C8 witness: the 350-character paragraph is truncated to 300 characters
plus the marker. -/
theorem extractSummary_truncation_witness :
    extractSummary (some para350) = some (strTake para350 300 ++ "...") ∧
    (strTake para350 300).length = 300 :=
  (extractSummary_truncation para350 (by decide)).2.2 (by decide)
